import Mathlib

/-!
A shallow embedding of the Redis-backed task store in `task_store.py`.

The Redis state visible to the store consists of three disjoint key spaces:
hashes `task:{task_id}` (primary records), sets `tasks:{user}:status:{status}`
(status index) and sorted sets `tasks:{user}:due` (due index).  We model each
key space as an association list: primary records keyed by task id, status
buckets keyed by the `(user, status)` pair and due entries keyed by the user.

Stored hash values are strings; the `due_time` field only ever holds `""`
(the absent sentinel) or the decimal rendering of an integer, so we model it
as `Option Int` (`none` for `""`, `some v` for `str(v)`; in particular
`some 0` models the stored string `"0"`).  `created_at` is kept as the raw
string.  Natural-language due-time parsing (`get_parsed_timestamp`) is an
external collaborator: an update value for `due_time` is modelled as the
epoch integer it resolves to, and the sentinel values `None` / `""` /
`"None"` recognised by `update_task` are modelled as `none`.
-/

/-- Association-list lookup, the model of reading one Redis key. -/
def lookupA {κ α : Type} [DecidableEq κ] : List (κ × α) → κ → Option α
  | [], _ => none
  | e :: rest, k => if e.1 = k then some e.2 else lookupA rest k

/-- Delete a key, the model of `DEL` (and the helper for overwriting). -/
def removeA {κ α : Type} [DecidableEq κ] (l : List (κ × α)) (k : κ) : List (κ × α) :=
  l.filter (fun e => decide (e.1 ≠ k))

/-- Overwrite the value stored at a key, the model of `HSET` with a full mapping. -/
def setA {κ α : Type} [DecidableEq κ] (l : List (κ × α)) (k : κ) (v : α) : List (κ × α) :=
  (k, v) :: removeA l k

/-- `SADD`: add a member to a set. -/
def sadd (l : List String) (x : String) : List String :=
  if x ∈ l then l else x :: l

/-- `SREM`: remove a member from a set. -/
def srem (l : List String) (x : String) : List String :=
  l.filter (fun y => decide (y ≠ x))

/-- `ZADD`: upsert a member with a score in a sorted set. -/
def zadd (l : List (String × Int)) (x : String) (score : Int) : List (String × Int) :=
  (x, score) :: l.filter (fun e => decide (e.1 ≠ x))

/-- `ZREM`: remove a member from a sorted set. -/
def zrem (l : List (String × Int)) (x : String) : List (String × Int) :=
  l.filter (fun e => decide (e.1 ≠ x))

/-- Does a score lie within the (optional, inclusive) bounds?  `none` models
the `-inf` / `+inf` sentinel passed to `ZRANGEBYSCORE`. -/
def scoreInRange (lo hi : Option Int) (v : Int) : Bool :=
  (match lo with | none => true | some m => decide (m ≤ v)) &&
  (match hi with | none => true | some m => decide (v ≤ m))

/-- `ZRANGEBYSCORE key lo hi`: members whose score lies in the inclusive range. -/
def zrangebyscore (l : List (String × Int)) (lo hi : Option Int) : List String :=
  (l.filter (fun e => scoreInRange lo hi e.2)).map Prod.fst

/-- The primary record stored in the hash `task:{id}`.  `due_time` models the
stored string as described in the header (`none` = `""`, `some v` = `str(v)`). -/
structure TaskRecord where
  id : String
  user_id : String
  description : String
  status : String
  due_time : Option Int
  created_at : String
deriving DecidableEq

/-- The dictionary returned by `get_task`: the raw fields, except that
`due_time` has been decoded (`""`/`"0"` ↦ `None`, otherwise the epoch value,
which the Python code renders as a human-readable string). -/
structure TaskView where
  id : String
  user_id : String
  description : String
  status : String
  due_time : Option Int
  created_at : String
deriving DecidableEq

/-- The `updates` dict passed to `update_task`.  An outer `none` means the
key is absent from the dict; `some v` means the key is present with value
`v`, where an inner `none` models the Python value `None` (stored as `""`).
For `due_time`, `some none` models the sentinel values `None` / `""` /
`"None"` and `some (some t)` a value that `get_parsed_timestamp` resolves
to epoch `t`. -/
structure Updates where
  description : Option (Option String) := none
  status : Option (Option String) := none
  due_time : Option (Option Int) := none
  id : Option (Option String) := none
  user_id : Option (Option String) := none
  created_at : Option (Option String) := none
deriving DecidableEq

/-- The full store state: primary records keyed by task id, status buckets
keyed by `(user, status)`, due-index sorted sets keyed by user. -/
structure Store where
  tasks : List (String × TaskRecord)
  statusIdx : List ((String × String) × List String)
  dueIdx : List (String × List (String × Int))
deriving DecidableEq

/-- The empty Redis database. -/
def Store.init : Store := ⟨[], [], []⟩

/-- The status bucket `tasks:{u}:status:{s}` (`SMEMBERS` of a missing key is empty). -/
def bucketOf (st : Store) (u s : String) : List String :=
  (lookupA st.statusIdx (u, s)).getD []

/-- The due-index entries `tasks:{u}:due` (empty for a missing key). -/
def dueEntriesOf (st : Store) (u : String) : List (String × Int) :=
  (lookupA st.dueIdx u).getD []

/-- `SADD` on the status-index key space. -/
def saddIdx (idx : List ((String × String) × List String)) (k : String × String)
    (x : String) : List ((String × String) × List String) :=
  setA idx k (sadd ((lookupA idx k).getD []) x)

/-- `SREM` on the status-index key space. -/
def sremIdx (idx : List ((String × String) × List String)) (k : String × String)
    (x : String) : List ((String × String) × List String) :=
  setA idx k (srem ((lookupA idx k).getD []) x)

/-- `ZADD` on the due-index key space. -/
def zaddIdx (idx : List (String × List (String × Int))) (u x : String) (score : Int) :
    List (String × List (String × Int)) :=
  setA idx u (zadd ((lookupA idx u).getD []) x score)

/-- `ZREM` on the due-index key space. -/
def zremIdx (idx : List (String × List (String × Int))) (u x : String) :
    List (String × List (String × Int)) :=
  setA idx u (zrem ((lookupA idx u).getD []) x)

/-- The read-path decoding of the stored `due_time` string:
`int(s)` when `s not in (None, "", "0")`, else `None`. -/
def decodeDue : Option Int → Option Int
  | none => none
  | some v => if v = 0 then none else some v

/-- Python truthiness of `old_due_time` (an optional int): `None` and `0` are
falsy. -/
def intIsTruthy : Option Int → Bool
  | none => false
  | some v => v != 0

/-- Stringification of an update value: `"" if v is None else str(v)`. -/
def applyVal (cur : String) : Option (Option String) → String
  | none => cur
  | some v => v.getD ""

/-- f-string interpolation of a possibly-`None` value (used for the new
status-bucket key): `None` renders as `"None"`. -/
def pyStr (v : Option String) : String :=
  v.getD "None"

/-- `create_task`: write the primary record, `SADD` the status bucket, and
`ZADD` the due index iff `due_time is not None`.  The freshly generated uuid
and the current timestamp are passed in as `tid` and `now`. -/
def createTask (st : Store) (user description status : String) (due : Option Int)
    (tid now : String) : Store :=
  let rec1 : TaskRecord :=
    { id := tid, user_id := user, description := description, status := status,
      due_time := due, created_at := now }
  { tasks := setA st.tasks tid rec1,
    statusIdx := saddIdx st.statusIdx (user, status) tid,
    dueIdx := match due with
      | some v => zaddIdx st.dueIdx user tid v
      | none => st.dueIdx }

/-- `get_task`: `HGETALL`, absent key gives `None`; otherwise the record with
`due_time` decoded (`""`/`"0"` ↦ absent). -/
def getTask (st : Store) (tid : String) : Option TaskView :=
  match lookupA st.tasks tid with
  | none => none
  | some t =>
      some { id := t.id, user_id := t.user_id, description := t.description,
             status := t.status, due_time := decodeDue t.due_time,
             created_at := t.created_at }

/-- The effective due time computed by `update_task`: the parsed update value
when the `due_time` key is present with a non-sentinel value, otherwise the
old decoded due time (`old_due_time`). -/
def effDue (task : TaskRecord) (upd : Updates) : Option Int :=
  match upd.due_time with
  | some (some v) => some v
  | _ => decodeDue task.due_time

/-- The `for k, v in updates.items()` loop of `update_task`: each supplied
field overwrites the stored string (with `None` stored as `""`); the
`due_time` field, when supplied, is written from the effective due time. -/
def applyUpdates (task : TaskRecord) (upd : Updates) : TaskRecord :=
  { id := applyVal task.id upd.id,
    user_id := applyVal task.user_id upd.user_id,
    description := applyVal task.description upd.description,
    status := applyVal task.status upd.status,
    due_time := match upd.due_time with
      | some _ => effDue task upd
      | none => task.due_time,
    created_at := applyVal task.created_at upd.created_at }

/-- The "reindex by status" block of `update_task`: when the `status` key is
in `updates` and its value differs from the old status, `SREM` from the old
bucket and `SADD` to the new one. -/
def reindexStatus (idx : List ((String × String) × List String)) (user tid : String)
    (task : TaskRecord) (upd : Updates) : List ((String × String) × List String) :=
  match upd.status with
  | none => idx
  | some v =>
      if v = some task.status then idx
      else saddIdx (sremIdx idx (user, task.status) tid) (user, pyStr v) tid

/-- The "reindex by due time" block of `update_task`: when the `due_time` key
is in `updates`, `ZREM` the old entry iff `old_due_time` is truthy, then
`ZADD` the new score iff the effective due time is present. -/
def reindexDue (idx : List (String × List (String × Int))) (user tid : String)
    (task : TaskRecord) (upd : Updates) : List (String × List (String × Int)) :=
  match upd.due_time with
  | none => idx
  | some _ =>
      let d1 := if intIsTruthy (decodeDue task.due_time) then zremIdx idx user tid else idx
      match effDue task upd with
      | some w => zaddIdx d1 user tid w
      | none => d1

/-- `update_task`: read the record (returning `False` when absent), apply the
updates to the hash, then reindex status and due time.  The three Redis key
spaces are disjoint, so the final state is assembled componentwise. -/
def updateTask (st : Store) (user tid : String) (upd : Updates) : Bool × Store :=
  match lookupA st.tasks tid with
  | none => (false, st)
  | some task =>
      (true,
        { tasks := setA st.tasks tid (applyUpdates task upd),
          statusIdx := reindexStatus st.statusIdx user tid task upd,
          dueIdx := reindexDue st.dueIdx user tid task upd })

/-- `delete_task`: `get_task` first (returning `False` when absent), `SREM`
the status bucket when the decoded status is truthy and not `"0"`, `ZREM` the
due index when the decoded due time is truthy, then delete the primary
record. -/
def deleteTask (st : Store) (user tid : String) : Bool × Store :=
  match getTask st tid with
  | none => (false, st)
  | some view =>
      (true,
        { tasks := removeA st.tasks tid,
          statusIdx :=
            if view.status ≠ "" ∧ view.status ≠ "0"
            then sremIdx st.statusIdx (user, view.status) tid
            else st.statusIdx,
          dueIdx :=
            if view.due_time.isSome
            then zremIdx st.dueIdx user tid
            else st.dueIdx })

/-- The id set computed by `get_tasks_by_filters` before resolution:
`none` models "no filter given" (Python returns `[]` in that case). -/
def filterIds (st : Store) (user : String) (statuses : Option (List String))
    (lo hi : Option Int) : Option (List String) :=
  match (match statuses with
         | none => none
         | some [] => none
         | some ss => some (((ss.map (fun s => bucketOf st user s)).flatten).dedup)),
        (if lo.isSome || hi.isSome
         then some (zrangebyscore (dueEntriesOf st user) lo hi)
         else none) with
  | some a, some b => some (a.filter (fun t => decide (t ∈ b)))
  | some a, none => some a
  | none, some b => some b
  | none, none => none

/-- `get_tasks_by_filters`: compute the combined id set, return `[]` when no
filter was given or the set is empty, otherwise `get_task` of every id (stale
ids yield `None` entries). -/
def getTasksByFilters (st : Store) (user : String) (statuses : Option (List String))
    (lo hi : Option Int) : List (Option TaskView) :=
  match filterIds st user statuses lo hi with
  | none => []
  | some l => if l.isEmpty then [] else l.map (fun t => getTask st t)

/-! ### Lemmas about the Redis primitives -/

theorem lookupA_removeA {κ α : Type} [DecidableEq κ] (l : List (κ × α)) (k k' : κ) :
    lookupA (removeA l k) k' = if k' = k then none else lookupA l k' := by
  induction l with
  | nil => simp [removeA, lookupA]
  | cons e rest ih =>
      by_cases hek : e.1 = k
      · rw [show removeA (e :: rest) k = removeA rest k by simp [removeA, hek], ih]
        by_cases hk : k' = k
        · simp [hk]
        · have hne : ¬ e.1 = k' := fun h => hk (by rw [← h, hek])
          simp [lookupA, hne, hk]
      · rw [show removeA (e :: rest) k = e :: removeA rest k by simp [removeA, hek]]
        by_cases hk : k' = k
        · subst hk
          simp [lookupA, hek, ih]
        · simp [lookupA, ih, hk]

theorem lookupA_setA {κ α : Type} [DecidableEq κ] (l : List (κ × α)) (k k' : κ) (v : α) :
    lookupA (setA l k v) k' = if k' = k then some v else lookupA l k' := by
  by_cases h : k' = k
  · subst h
    simp [setA, lookupA]
  · have h2 : ¬ k = k' := fun hh => h hh.symm
    simp [setA, lookupA, h2, h, lookupA_removeA]

theorem mem_sadd (l : List String) (x y : String) :
    y ∈ sadd l x ↔ y = x ∨ y ∈ l := by
  by_cases h : x ∈ l
  · simp only [sadd, if_pos h]
    constructor
    · exact fun hy => Or.inr hy
    · rintro (rfl | hy)
      · exact h
      · exact hy
  · simp [sadd, if_neg h]

theorem mem_srem (l : List String) (x y : String) :
    y ∈ srem l x ↔ y ∈ l ∧ y ≠ x := by
  simp [srem]

theorem mem_zadd (l : List (String × Int)) (x y : String) (w sc : Int) :
    (y, sc) ∈ zadd l x w ↔ (y = x ∧ sc = w) ∨ ((y, sc) ∈ l ∧ y ≠ x) := by
  simp only [zadd, List.mem_cons, List.mem_filter, Prod.mk.injEq, decide_eq_true_iff]

theorem mem_zrem (l : List (String × Int)) (x y : String) (sc : Int) :
    (y, sc) ∈ zrem l x ↔ (y, sc) ∈ l ∧ y ≠ x := by
  simp [zrem]

theorem mem_zrangebyscore (l : List (String × Int)) (lo hi : Option Int) (t : String) :
    t ∈ zrangebyscore l lo hi ↔ ∃ sc, (t, sc) ∈ l ∧ scoreInRange lo hi sc = true := by
  simp only [zrangebyscore, List.mem_map, List.mem_filter]
  constructor
  · rintro ⟨⟨a, sc⟩, ⟨hmem, hsc⟩, rfl⟩
    exact ⟨sc, hmem, hsc⟩
  · rintro ⟨sc, hmem, hsc⟩
    exact ⟨(t, sc), ⟨hmem, hsc⟩, rfl⟩

/-! ### Lemmas about the index key spaces -/

theorem bucketOf_saddIdx (st : Store) (k : String × String) (x : String) (u s : String) :
    (lookupA (saddIdx st.statusIdx k x) (u, s)).getD [] =
      if (u, s) = k then sadd (bucketOf st k.1 k.2) x else bucketOf st u s := by
  by_cases h : (u, s) = k <;> simp [saddIdx, lookupA_setA, h, bucketOf]

theorem bucketOf_sremIdx (st : Store) (k : String × String) (x : String) (u s : String) :
    (lookupA (sremIdx st.statusIdx k x) (u, s)).getD [] =
      if (u, s) = k then srem (bucketOf st k.1 k.2) x else bucketOf st u s := by
  by_cases h : (u, s) = k <;> simp [sremIdx, lookupA_setA, h, bucketOf]

theorem lookupA_getD_saddIdx (idx : List ((String × String) × List String))
    (k k' : String × String) (x : String) :
    (lookupA (saddIdx idx k x) k').getD [] =
      if k' = k then sadd ((lookupA idx k).getD []) x else (lookupA idx k').getD [] := by
  by_cases h : k' = k <;> simp [saddIdx, lookupA_setA, h]

theorem lookupA_getD_sremIdx (idx : List ((String × String) × List String))
    (k k' : String × String) (x : String) :
    (lookupA (sremIdx idx k x) k').getD [] =
      if k' = k then srem ((lookupA idx k).getD []) x else (lookupA idx k').getD [] := by
  by_cases h : k' = k <;> simp [sremIdx, lookupA_setA, h]

theorem dueEntriesOf_zaddIdx (idx : List (String × List (String × Int))) (u x : String)
    (w : Int) (u' : String) :
    (lookupA (zaddIdx idx u x w) u').getD [] =
      if u' = u then zadd ((lookupA idx u).getD []) x w else (lookupA idx u').getD [] := by
  by_cases h : u' = u <;> simp [zaddIdx, lookupA_setA, h]

theorem dueEntriesOf_zremIdx (idx : List (String × List (String × Int))) (u x : String)
    (u' : String) :
    (lookupA (zremIdx idx u x) u').getD [] =
      if u' = u then zrem ((lookupA idx u).getD []) x else (lookupA idx u').getD [] := by
  by_cases h : u' = u <;> simp [zremIdx, lookupA_setA, h]

/-! ### Lemmas about the decoding helpers -/

theorem decodeDue_ne_zero (d : Option Int) (v : Int) (h : decodeDue d = some v) : v ≠ 0 := by
  cases d with
  | none => simp [decodeDue] at h
  | some w =>
      by_cases hw : w = 0 <;> simp [decodeDue, hw] at h
      exact h ▸ hw

theorem decodeDue_of_ne_zero (d : Option Int) (h : d ≠ some 0) : decodeDue d = d := by
  cases d with
  | none => rfl
  | some w =>
      have hw : w ≠ 0 := fun h0 => h (h0 ▸ rfl)
      simp [decodeDue, hw]

theorem intIsTruthy_decodeDue (d : Option Int) :
    intIsTruthy (decodeDue d) = (decodeDue d).isSome := by
  cases d with
  | none => rfl
  | some w => by_cases hw : w = 0 <;> simp [decodeDue, intIsTruthy, hw]

/-! ### Operation sequences

The claims about index consistency quantify over sequences of
`create_task` / `update_task` / `delete_task` calls in which each call is made
with the task's owning `user_id` and statuses drawn from
`{pending, completed}`.  An `Op` carries the externally supplied data of one
call; for updates it carries the three fields the surrounding API can place
in the `updates` dict (`description`, `status`, `due_time`). -/

inductive Op where
  | create (user description status : String) (due : Option Int) (tid now : String)
  | update (user tid : String) (descU : Option (Option String)) (statU : Option String)
      (dueU : Option (Option Int))
  | delete (user tid : String)
deriving DecidableEq

/-- The `updates` dict built from an update operation's fields. -/
def opUpdates (descU : Option (Option String)) (statU : Option String)
    (dueU : Option (Option Int)) : Updates :=
  { description := descU, status := statU.map some, due_time := dueU }

/-- Execute one operation against the store. -/
def applyOp (st : Store) : Op → Store
  | .create u d s due tid now => createTask st u d s due tid now
  | .update u tid dU sU duU => (updateTask st u tid (opUpdates dU sU duU)).2
  | .delete u tid => (deleteTask st u tid).2

/-- Execute a sequence of operations, first operation first. -/
def runFrom (st : Store) : List Op → Store
  | [] => st
  | op :: rest => runFrom (applyOp st op) rest

/-- Is a status one of the two values the API validates? -/
def goodStatus (s : String) : Bool :=
  s == "pending" || s == "completed"

/-- The side conditions the claims impose on one call: creates use a fresh
task id and a valid status; updates and deletes of an existing task are made
with the owning `user_id`, and an updated status is valid. -/
def goodOp (st : Store) : Op → Bool
  | .create _ _ s _ tid _ => (lookupA st.tasks tid).isNone && goodStatus s
  | .update u tid _ sU _ =>
      (match lookupA st.tasks tid with
       | some r => u == r.user_id
       | none => true) &&
      (match sU with
       | some s => goodStatus s
       | none => true)
  | .delete u tid =>
      match lookupA st.tasks tid with
      | some r => u == r.user_id
      | none => true

/-- Every operation of the sequence satisfies `goodOp` in the state where it
executes. -/
def goodFrom (st : Store) : List Op → Bool
  | [] => true
  | op :: rest => goodOp st op && goodFrom (applyOp st op) rest

/-- Does an operation avoid introducing the due time `0` (whose stored
representation `"0"` the read paths treat as absent)? -/
def nzOp : Op → Bool
  | .create _ _ _ due _ _ => due != some 0
  | .update _ _ _ _ duU => duU != some (some 0)
  | .delete _ _ => true

/-- `goodFrom` strengthened with `nzOp` at every step. -/
def goodFromNZ (st : Store) : List Op → Bool
  | [] => true
  | op :: rest => (goodOp st op && nzOp op) && goodFromNZ (applyOp st op) rest

/-! ### The index-consistency invariants -/

/-- Status-index consistency (spec P1/I2): a task id is a member of the
status bucket `(u, s)` iff its primary record exists, belongs to `u` and has
stored status `s` — hence it is in exactly the one bucket matching its
record, and in no bucket when the record is gone. -/
def StatusInv (st : Store) : Prop :=
  ∀ u s t, t ∈ bucketOf st u s ↔
    ∃ r, lookupA st.tasks t = some r ∧ r.user_id = u ∧ r.status = s

/-- Every stored record has one of the two validated statuses. -/
def StatusOK (st : Store) : Prop :=
  ∀ t r, lookupA st.tasks t = some r → r.status = "pending" ∨ r.status = "completed"

/-- Due-index consistency (spec P2/I3): `(t, sc)` is an entry of `u`'s due
index iff `t`'s primary record exists, belongs to `u` and stores due time
`sc`. -/
def DueInv (st : Store) : Prop :=
  ∀ u t sc, (t, sc) ∈ dueEntriesOf st u ↔
    ∃ r, lookupA st.tasks t = some r ∧ r.user_id = u ∧ r.due_time = some sc

/-- No stored record carries the ambiguous due time `0`. -/
def DueOK (st : Store) : Prop :=
  ∀ t r, lookupA st.tasks t = some r → r.due_time ≠ some 0

/-! ### Characterizations of the operations -/

theorem createTask_tasks (st : Store) (u d s : String) (due : Option Int) (tid now : String) :
    (createTask st u d s due tid now).tasks =
      setA st.tasks tid ⟨tid, u, d, s, due, now⟩ := by
  cases due <;> rfl

theorem createTask_statusIdx (st : Store) (u d s : String) (due : Option Int)
    (tid now : String) :
    (createTask st u d s due tid now).statusIdx = saddIdx st.statusIdx (u, s) tid := by
  cases due <;> rfl

theorem createTask_dueIdx_some (st : Store) (u d s : String) (v : Int) (tid now : String) :
    (createTask st u d s (some v) tid now).dueIdx = zaddIdx st.dueIdx u tid v := rfl

theorem createTask_dueIdx_none (st : Store) (u d s : String) (tid now : String) :
    (createTask st u d s none tid now).dueIdx = st.dueIdx := rfl

theorem getTask_of_found (st : Store) (tid : String) (r : TaskRecord)
    (hl : lookupA st.tasks tid = some r) :
    getTask st tid =
      some ⟨r.id, r.user_id, r.description, r.status, decodeDue r.due_time, r.created_at⟩ := by
  simp [getTask, hl]

theorem getTask_of_none (st : Store) (tid : String) (hl : lookupA st.tasks tid = none) :
    getTask st tid = none := by
  simp [getTask, hl]

theorem updateTask_of_found (st : Store) (user tid : String) (upd : Updates)
    (task : TaskRecord) (hl : lookupA st.tasks tid = some task) :
    updateTask st user tid upd =
      (true,
        { tasks := setA st.tasks tid (applyUpdates task upd),
          statusIdx := reindexStatus st.statusIdx user tid task upd,
          dueIdx := reindexDue st.dueIdx user tid task upd }) := by
  simp [updateTask, hl]

theorem updateTask_of_none (st : Store) (user tid : String) (upd : Updates)
    (hl : lookupA st.tasks tid = none) :
    updateTask st user tid upd = (false, st) := by
  simp [updateTask, hl]

theorem deleteTask_of_found (st : Store) (user tid : String) (r : TaskRecord)
    (hl : lookupA st.tasks tid = some r) :
    deleteTask st user tid =
      (true,
        { tasks := removeA st.tasks tid,
          statusIdx :=
            if r.status ≠ "" ∧ r.status ≠ "0"
            then sremIdx st.statusIdx (user, r.status) tid
            else st.statusIdx,
          dueIdx :=
            if (decodeDue r.due_time).isSome
            then zremIdx st.dueIdx user tid
            else st.dueIdx }) := by
  simp [deleteTask, getTask_of_found st tid r hl]

theorem deleteTask_of_none (st : Store) (user tid : String)
    (hl : lookupA st.tasks tid = none) :
    deleteTask st user tid = (false, st) := by
  simp [deleteTask, getTask_of_none st tid hl]

theorem applyUpdates_id (task : TaskRecord) (dU : Option (Option String))
    (sU : Option String) (duU : Option (Option Int)) :
    (applyUpdates task (opUpdates dU sU duU)).id = task.id := rfl

theorem applyUpdates_user_id (task : TaskRecord) (dU : Option (Option String))
    (sU : Option String) (duU : Option (Option Int)) :
    (applyUpdates task (opUpdates dU sU duU)).user_id = task.user_id := rfl

theorem applyUpdates_created_at (task : TaskRecord) (dU : Option (Option String))
    (sU : Option String) (duU : Option (Option Int)) :
    (applyUpdates task (opUpdates dU sU duU)).created_at = task.created_at := rfl

theorem applyUpdates_status (task : TaskRecord) (dU : Option (Option String))
    (sU : Option String) (duU : Option (Option Int)) :
    (applyUpdates task (opUpdates dU sU duU)).status =
      match sU with
      | some s => s
      | none => task.status := by
  cases sU <;> rfl

theorem applyUpdates_due_time (task : TaskRecord) (dU : Option (Option String))
    (sU : Option String) (duU : Option (Option Int)) :
    (applyUpdates task (opUpdates dU sU duU)).due_time =
      match duU with
      | some (some v) => some v
      | some none => decodeDue task.due_time
      | none => task.due_time := by
  cases duU with
  | none => rfl
  | some v => cases v <;> rfl

theorem reindexStatus_opUpdates (idx : List ((String × String) × List String))
    (user tid : String) (task : TaskRecord) (dU : Option (Option String))
    (sU : Option String) (duU : Option (Option Int)) :
    reindexStatus idx user tid task (opUpdates dU sU duU) =
      match sU with
      | none => idx
      | some s =>
          if s = task.status then idx
          else saddIdx (sremIdx idx (user, task.status) tid) (user, s) tid := by
  cases sU with
  | none => rfl
  | some s =>
      by_cases h : s = task.status <;>
        simp [reindexStatus, opUpdates, pyStr, h]

theorem reindexDue_opUpdates (idx : List (String × List (String × Int)))
    (user tid : String) (task : TaskRecord) (dU : Option (Option String))
    (sU : Option String) (duU : Option (Option Int)) :
    reindexDue idx user tid task (opUpdates dU sU duU) =
      match duU with
      | none => idx
      | some w0 =>
          let d1 := if intIsTruthy (decodeDue task.due_time) then zremIdx idx user tid else idx
          match (match w0 with | some v => some v | none => decodeDue task.due_time) with
          | some w => zaddIdx d1 user tid w
          | none => d1 := by
  cases duU with
  | none => rfl
  | some w0 => cases w0 <;> rfl

theorem goodStatus_eq (s : String) (h : goodStatus s = true) :
    s = "pending" ∨ s = "completed" := by
  simpa [goodStatus] using h

/-! ### Preservation of status-index consistency (claim C1) -/

theorem statusInv_pointwise_unchanged (st st' : Store) (tid : String) (r task1 : TaskRecord)
    (hl : lookupA st.tasks tid = some r) (hI : StatusInv st)
    (hu : task1.user_id = r.user_id) (hs : task1.status = r.status)
    (hA : ∀ t, lookupA st'.tasks t = if t = tid then some task1 else lookupA st.tasks t)
    (hB : ∀ u' s', bucketOf st' u' s' = bucketOf st u' s') :
    StatusInv st' := by
  intro u' s' t
  rw [hB u' s', hA t]
  by_cases ht : t = tid
  · subst ht
    rw [if_pos rfl]
    constructor
    · intro hmem
      obtain ⟨r0, hr0, hru, hrs⟩ := (hI u' s' t).mp hmem
      rw [hl] at hr0
      injection hr0 with h
      subst h
      exact ⟨task1, rfl, hu.trans hru, hs.trans hrs⟩
    · rintro ⟨r0, hr0, hru, hrs⟩
      injection hr0 with h
      subst h
      exact (hI u' s' t).mpr ⟨r, hl, hu.symm.trans hru, hs.symm.trans hrs⟩
  · rw [if_neg ht]
    exact hI u' s' t

theorem statusInv_pointwise_moved (st st' : Store) (u tid : String) (r task1 : TaskRecord)
    (hl : lookupA st.tasks tid = some r) (hI : StatusInv st)
    (huser : u = r.user_id) (s0 : String) (hss : s0 ≠ r.status)
    (hu : task1.user_id = r.user_id) (hs : task1.status = s0)
    (hA : ∀ t, lookupA st'.tasks t = if t = tid then some task1 else lookupA st.tasks t)
    (hB : ∀ u' s', bucketOf st' u' s' =
        if (u', s') = (u, s0) then sadd (bucketOf st u s0) tid
        else if (u', s') = (u, r.status) then srem (bucketOf st u r.status) tid
        else bucketOf st u' s') :
    StatusInv st' := by
  intro u' s' t
  rw [hB u' s', hA t]
  by_cases ht : t = tid
  · subst ht
    rw [if_pos rfl]
    by_cases hk2 : (u', s') = (u, s0)
    · rw [if_pos hk2]
      rw [Prod.mk.injEq] at hk2
      obtain ⟨h1, h2⟩ := hk2
      constructor
      · intro _
        exact ⟨task1, rfl, (hu.trans huser.symm).trans h1.symm, hs.trans h2.symm⟩
      · intro _
        exact (mem_sadd _ _ _).mpr (Or.inl rfl)
    · rw [if_neg hk2]
      by_cases hk1 : (u', s') = (u, r.status)
      · rw [if_pos hk1]
        constructor
        · intro hmem
          exact absurd rfl ((mem_srem _ _ _).mp hmem).2
        · rintro ⟨r0, hr0, hru, hrs⟩
          injection hr0 with h
          subst h
          rw [Prod.mk.injEq] at hk1
          obtain ⟨h1, h2⟩ := hk1
          exact absurd (hs.symm.trans (hrs.trans h2)) hss
      · rw [if_neg hk1]
        constructor
        · intro hmem
          obtain ⟨r0, hr0, hru, hrs⟩ := (hI u' s' t).mp hmem
          rw [hl] at hr0
          injection hr0 with h
          subst h
          exact absurd (by rw [Prod.mk.injEq]; exact ⟨(huser.trans hru).symm, hrs.symm⟩) hk1
        · rintro ⟨r0, hr0, hru, hrs⟩
          injection hr0 with h
          subst h
          refine absurd ?_ hk2
          rw [Prod.mk.injEq]
          exact ⟨hru.symm.trans (hu.trans huser.symm), hrs.symm.trans hs⟩
  · rw [if_neg ht]
    by_cases hk2 : (u', s') = (u, s0)
    · rw [if_pos hk2]
      rw [Prod.mk.injEq] at hk2
      obtain ⟨h1, h2⟩ := hk2
      subst h1
      subst h2
      rw [mem_sadd, or_iff_right ht]
      exact hI u' s' t
    · rw [if_neg hk2]
      by_cases hk1 : (u', s') = (u, r.status)
      · rw [if_pos hk1]
        rw [Prod.mk.injEq] at hk1
        obtain ⟨h1, h2⟩ := hk1
        subst h1
        rw [mem_srem, and_iff_left ht, h2]
        exact hI u' r.status t
      · rw [if_neg hk1]
        exact hI u' s' t

theorem statusInv_pointwise_created (st st' : Store) (u s tid : String) (rec1 : TaskRecord)
    (hfresh : lookupA st.tasks tid = none) (hI : StatusInv st)
    (hru : rec1.user_id = u) (hrs : rec1.status = s)
    (hA : ∀ t, lookupA st'.tasks t = if t = tid then some rec1 else lookupA st.tasks t)
    (hB : ∀ u' s', bucketOf st' u' s' =
        if (u', s') = (u, s) then sadd (bucketOf st u s) tid else bucketOf st u' s') :
    StatusInv st' := by
  intro u' s' t
  rw [hB u' s', hA t]
  by_cases ht : t = tid
  · subst ht
    rw [if_pos rfl]
    by_cases hk : (u', s') = (u, s)
    · rw [if_pos hk]
      rw [Prod.mk.injEq] at hk
      obtain ⟨h1, h2⟩ := hk
      constructor
      · intro _
        exact ⟨rec1, rfl, hru.trans h1.symm, hrs.trans h2.symm⟩
      · intro _
        exact (mem_sadd _ _ _).mpr (Or.inl rfl)
    · rw [if_neg hk]
      constructor
      · intro hmem
        obtain ⟨r0, hr0, -, -⟩ := (hI u' s' t).mp hmem
        rw [hfresh] at hr0
        exact Option.noConfusion hr0
      · rintro ⟨r0, hr0, hru0, hrs0⟩
        injection hr0 with h
        subst h
        exact absurd (by rw [Prod.mk.injEq]; exact ⟨hru0.symm.trans hru, hrs0.symm.trans hrs⟩) hk
  · rw [if_neg ht]
    by_cases hk : (u', s') = (u, s)
    · rw [if_pos hk]
      rw [Prod.mk.injEq] at hk
      obtain ⟨h1, h2⟩ := hk
      subst h1
      rw [mem_sadd, or_iff_right ht, h2]
      exact hI u' s t
    · rw [if_neg hk]
      exact hI u' s' t

theorem statusInv_pointwise_removed (st st' : Store) (u tid : String) (r : TaskRecord)
    (hl : lookupA st.tasks tid = some r) (hI : StatusInv st)
    (huser : u = r.user_id)
    (hA : ∀ t, lookupA st'.tasks t = if t = tid then none else lookupA st.tasks t)
    (hB : ∀ u' s', bucketOf st' u' s' =
        if (u', s') = (u, r.status) then srem (bucketOf st u r.status) tid
        else bucketOf st u' s') :
    StatusInv st' := by
  intro u' s' t
  rw [hB u' s', hA t]
  by_cases ht : t = tid
  · subst ht
    rw [if_pos rfl]
    constructor
    · intro hmem
      by_cases hk : (u', s') = (u, r.status)
      · rw [if_pos hk] at hmem
        exact absurd rfl ((mem_srem _ _ _).mp hmem).2
      · rw [if_neg hk] at hmem
        obtain ⟨r0, hr0, hru, hrs⟩ := (hI u' s' t).mp hmem
        rw [hl] at hr0
        injection hr0 with h
        subst h
        exact absurd (by rw [Prod.mk.injEq]; exact ⟨(huser.trans hru).symm, hrs.symm⟩) hk
    · rintro ⟨r0, hr0, -, -⟩
      exact Option.noConfusion hr0
  · rw [if_neg ht]
    by_cases hk : (u', s') = (u, r.status)
    · rw [if_pos hk]
      rw [Prod.mk.injEq] at hk
      obtain ⟨h1, h2⟩ := hk
      subst h1
      rw [mem_srem, and_iff_left ht, h2]
      exact hI u' r.status t
    · rw [if_neg hk]
      exact hI u' s' t

theorem c1_step (st : Store) (op : Op) (hI : StatusInv st) (hOK : StatusOK st)
    (hg : goodOp st op = true) :
    StatusInv (applyOp st op) ∧ StatusOK (applyOp st op) := by
  cases op with
  | create u d s due tid now =>
      simp only [goodOp, Bool.and_eq_true, Option.isNone_iff_eq_none] at hg
      obtain ⟨hfresh, hgs⟩ := hg
      have hA : ∀ t, lookupA (applyOp st (.create u d s due tid now)).tasks t =
          if t = tid then some ⟨tid, u, d, s, due, now⟩ else lookupA st.tasks t := by
        intro t
        show lookupA (createTask st u d s due tid now).tasks t = _
        rw [createTask_tasks, lookupA_setA]
      have hB : ∀ u' s', bucketOf (applyOp st (.create u d s due tid now)) u' s' =
          if (u', s') = (u, s) then sadd (bucketOf st u s) tid else bucketOf st u' s' := by
        intro u' s'
        show (lookupA (createTask st u d s due tid now).statusIdx (u', s')).getD [] = _
        rw [createTask_statusIdx, lookupA_getD_saddIdx]
        rfl
      refine ⟨statusInv_pointwise_created st _ u s tid _ hfresh hI rfl rfl hA hB, ?_⟩
      intro t r hr
      rw [hA t] at hr
      by_cases ht : t = tid
      · rw [if_pos ht] at hr
        injection hr with h
        subst h
        exact goodStatus_eq s hgs
      · rw [if_neg ht] at hr
        exact hOK t r hr
  | update u tid dU sU duU =>
      rcases hl : lookupA st.tasks tid with _ | r
      · have he : applyOp st (.update u tid dU sU duU) = st := by
          show (updateTask st u tid (opUpdates dU sU duU)).2 = st
          rw [updateTask_of_none st u tid _ hl]
        rw [he]
        exact ⟨hI, hOK⟩
      · simp only [goodOp, hl, Bool.and_eq_true, beq_iff_eq] at hg
        obtain ⟨huser, hstat⟩ := hg
        have hA : ∀ t, lookupA (applyOp st (.update u tid dU sU duU)).tasks t =
            if t = tid then some (applyUpdates r (opUpdates dU sU duU))
            else lookupA st.tasks t := by
          intro t
          show lookupA (updateTask st u tid (opUpdates dU sU duU)).2.tasks t = _
          rw [updateTask_of_found st u tid _ r hl]
          exact lookupA_setA st.tasks tid t _
        have hOK1 : StatusOK (applyOp st (.update u tid dU sU duU)) := by
          intro t r0 hr0
          rw [hA t] at hr0
          by_cases ht : t = tid
          · rw [if_pos ht] at hr0
            injection hr0 with h
            subst h
            rw [applyUpdates_status]
            cases sU with
            | none => exact hOK tid r hl
            | some s0 => exact goodStatus_eq s0 hstat
          · rw [if_neg ht] at hr0
            exact hOK t r0 hr0
        refine ⟨?_, hOK1⟩
        have hstidx : (applyOp st (.update u tid dU sU duU)).statusIdx =
            reindexStatus st.statusIdx u tid r (opUpdates dU sU duU) := by
          show (updateTask st u tid (opUpdates dU sU duU)).2.statusIdx = _
          rw [updateTask_of_found st u tid _ r hl]
        cases sU with
        | none =>
            refine statusInv_pointwise_unchanged st _ tid r _ hl hI
              (applyUpdates_user_id r dU none duU) ?_ hA ?_
            · rw [applyUpdates_status]
            · intro u' s'
              show (lookupA (applyOp st (.update u tid dU none duU)).statusIdx (u', s')).getD [] = _
              rw [hstidx, reindexStatus_opUpdates]
              rfl
        | some s0 =>
            by_cases hss : s0 = r.status
            · refine statusInv_pointwise_unchanged st _ tid r _ hl hI
                (applyUpdates_user_id r dU (some s0) duU) ?_ hA ?_
              · rw [applyUpdates_status]
                exact hss
              · intro u' s'
                show (lookupA (applyOp st (.update u tid dU (some s0) duU)).statusIdx
                    (u', s')).getD [] = _
                rw [hstidx, reindexStatus_opUpdates]
                simp only [hss, if_pos]
                rfl
            · refine statusInv_pointwise_moved st _ u tid r _ hl hI huser s0 hss
                (applyUpdates_user_id r dU (some s0) duU) ?_ hA ?_
              · rw [applyUpdates_status]
              · intro u' s'
                show (lookupA (applyOp st (.update u tid dU (some s0) duU)).statusIdx
                    (u', s')).getD [] = _
                rw [hstidx, reindexStatus_opUpdates]
                simp only [hss, if_neg, ite_false]
                rw [lookupA_getD_saddIdx, lookupA_getD_sremIdx, lookupA_getD_sremIdx]
                have hne : ¬ ((u, s0) = (u, r.status)) := by
                  rw [Prod.mk.injEq]
                  exact fun h => hss h.2
                rw [if_neg hne]
                rfl
  | delete u tid =>
      rcases hl : lookupA st.tasks tid with _ | r
      · have he : applyOp st (.delete u tid) = st := by
          show (deleteTask st u tid).2 = st
          rw [deleteTask_of_none st u tid hl]
        rw [he]
        exact ⟨hI, hOK⟩
      · simp only [goodOp, hl, beq_iff_eq] at hg
        have hguard : (r.status ≠ "" ∧ r.status ≠ "0") := by
          rcases hOK tid r hl with h | h <;> rw [h] <;> exact ⟨by decide, by decide⟩
        have hA : ∀ t, lookupA (applyOp st (.delete u tid)).tasks t =
            if t = tid then none else lookupA st.tasks t := by
          intro t
          show lookupA (deleteTask st u tid).2.tasks t = _
          rw [deleteTask_of_found st u tid r hl]
          exact lookupA_removeA st.tasks tid t
        have hB : ∀ u' s', bucketOf (applyOp st (.delete u tid)) u' s' =
            if (u', s') = (u, r.status) then srem (bucketOf st u r.status) tid
            else bucketOf st u' s' := by
          intro u' s'
          show (lookupA (deleteTask st u tid).2.statusIdx (u', s')).getD [] = _
          rw [deleteTask_of_found st u tid r hl]
          simp only [if_pos hguard]
          rw [lookupA_getD_sremIdx]
          rfl
        refine ⟨statusInv_pointwise_removed st _ u tid r hl hI hg hA hB, ?_⟩
        intro t r0 hr0
        rw [hA t] at hr0
        by_cases ht : t = tid
        · rw [if_pos ht] at hr0
          exact Option.noConfusion hr0
        · rw [if_neg ht] at hr0
          exact hOK t r0 hr0

theorem c1_run (ops : List Op) :
    ∀ st : Store, StatusInv st → StatusOK st → goodFrom st ops = true →
      StatusInv (runFrom st ops) ∧ StatusOK (runFrom st ops) := by
  induction ops with
  | nil => exact fun st hI hOK _ => ⟨hI, hOK⟩
  | cons op rest ih =>
      intro st hI hOK hg
      simp only [goodFrom, Bool.and_eq_true] at hg
      obtain ⟨h1, h2⟩ := hg
      obtain ⟨hI', hOK'⟩ := c1_step st op hI hOK h1
      exact ih (applyOp st op) hI' hOK' h2

theorem statusInv_init : StatusInv Store.init := by
  intro u s t
  constructor
  · intro h
    simp [bucketOf, Store.init, lookupA] at h
  · rintro ⟨r, hr, -, -⟩
    simp [Store.init, lookupA] at hr

theorem statusOK_init : StatusOK Store.init := by
  intro t r hr
  simp [Store.init, lookupA] at hr

/-! ### Preservation of due-index consistency (claim C2, amended) -/

theorem decodeDue_not_zero (d : Option Int) : decodeDue d ≠ some 0 :=
  fun h => decodeDue_ne_zero d 0 h rfl

theorem mem_zadd_guard (l : List (String × Int)) (b : Bool) (tid t : String) (w sc : Int) :
    (t, sc) ∈ zadd (if b then zrem l tid else l) tid w ↔
      (t = tid ∧ sc = w) ∨ ((t, sc) ∈ l ∧ t ≠ tid) := by
  cases b with
  | false => exact mem_zadd l tid t w sc
  | true =>
      rw [if_pos rfl, mem_zadd]
      constructor
      · rintro (h | ⟨hm, hne⟩)
        · exact Or.inl h
        · exact Or.inr ⟨((mem_zrem _ _ _ _).mp hm).1, hne⟩
      · rintro (h | ⟨hm, hne⟩)
        · exact Or.inl h
        · exact Or.inr ⟨(mem_zrem _ _ _ _).mpr ⟨hm, hne⟩, hne⟩

theorem dueInv_pointwise_created_none (st st' : Store) (tid : String) (rec1 : TaskRecord)
    (hfresh : lookupA st.tasks tid = none) (hI : DueInv st)
    (hdue : rec1.due_time = none)
    (hA : ∀ t, lookupA st'.tasks t = if t = tid then some rec1 else lookupA st.tasks t)
    (hC : ∀ u', dueEntriesOf st' u' = dueEntriesOf st u') :
    DueInv st' := by
  intro u' t sc
  rw [hC u']
  by_cases ht : t = tid
  · subst ht
    constructor
    · intro hmem
      obtain ⟨r0, hr0, -, -⟩ := (hI u' t sc).mp hmem
      rw [hfresh] at hr0
      exact Option.noConfusion hr0
    · rintro ⟨r0, hr0, -, hrd⟩
      rw [hA t, if_pos rfl] at hr0
      injection hr0 with h
      subst h
      rw [hdue] at hrd
      exact Option.noConfusion hrd
  · rw [show (∃ r, lookupA st'.tasks t = some r ∧ r.user_id = u' ∧ r.due_time = some sc) ↔
        (∃ r, lookupA st.tasks t = some r ∧ r.user_id = u' ∧ r.due_time = some sc) from by
      rw [hA t, if_neg ht]]
    exact hI u' t sc

theorem dueInv_pointwise_created_some (st st' : Store) (u tid : String) (rec1 : TaskRecord)
    (v : Int) (hfresh : lookupA st.tasks tid = none) (hI : DueInv st)
    (hru : rec1.user_id = u) (hdue : rec1.due_time = some v)
    (hA : ∀ t, lookupA st'.tasks t = if t = tid then some rec1 else lookupA st.tasks t)
    (hC : ∀ u', dueEntriesOf st' u' =
        if u' = u then zadd (dueEntriesOf st u) tid v else dueEntriesOf st u') :
    DueInv st' := by
  intro u' t sc
  rw [hC u']
  by_cases ht : t = tid
  · subst ht
    by_cases hu' : u' = u
    · rw [if_pos hu', mem_zadd]
      constructor
      · rintro (⟨-, rfl⟩ | ⟨-, hne⟩)
        · exact ⟨rec1, by rw [hA t, if_pos rfl], hru.trans hu'.symm, hdue⟩
        · exact absurd rfl hne
      · rintro ⟨r0, hr0, -, hrd⟩
        rw [hA t, if_pos rfl] at hr0
        injection hr0 with h
        subst h
        rw [hdue] at hrd
        injection hrd with h2
        exact Or.inl ⟨rfl, h2.symm⟩
    · rw [if_neg hu']
      constructor
      · intro hmem
        obtain ⟨r0, hr0, -, -⟩ := (hI u' t sc).mp hmem
        rw [hfresh] at hr0
        exact Option.noConfusion hr0
      · rintro ⟨r0, hr0, hru0, -⟩
        rw [hA t, if_pos rfl] at hr0
        injection hr0 with h
        subst h
        exact absurd (hru0.symm.trans hru) hu'
  · have hrhs : (∃ r, lookupA st'.tasks t = some r ∧ r.user_id = u' ∧ r.due_time = some sc) ↔
        (∃ r, lookupA st.tasks t = some r ∧ r.user_id = u' ∧ r.due_time = some sc) := by
      rw [hA t, if_neg ht]
    rw [hrhs]
    by_cases hu' : u' = u
    · subst hu'
      rw [if_pos rfl, mem_zadd]
      constructor
      · rintro (⟨h, -⟩ | ⟨hm, -⟩)
        · exact absurd h ht
        · exact (hI u' t sc).mp hm
      · intro h
        exact Or.inr ⟨(hI u' t sc).mpr h, ht⟩
    · rw [if_neg hu']
      exact hI u' t sc

theorem dueInv_pointwise_unchanged (st st' : Store) (tid : String) (r task1 : TaskRecord)
    (hl : lookupA st.tasks tid = some r) (hI : DueInv st)
    (hu : task1.user_id = r.user_id) (hd : task1.due_time = r.due_time)
    (hA : ∀ t, lookupA st'.tasks t = if t = tid then some task1 else lookupA st.tasks t)
    (hC : ∀ u', dueEntriesOf st' u' = dueEntriesOf st u') :
    DueInv st' := by
  intro u' t sc
  rw [hC u']
  by_cases ht : t = tid
  · subst ht
    rw [hI u' t sc, hA t, if_pos rfl]
    constructor
    · rintro ⟨r0, hr0, hru0, hrd0⟩
      rw [hl] at hr0
      injection hr0 with h
      subst h
      exact ⟨task1, rfl, hu.trans hru0, hd.trans hrd0⟩
    · rintro ⟨r0, hr0, hru0, hrd0⟩
      injection hr0 with h
      subst h
      exact ⟨r, hl, hu.symm.trans hru0, hd.symm.trans hrd0⟩
  · rw [show (∃ r0, lookupA st'.tasks t = some r0 ∧ r0.user_id = u' ∧ r0.due_time = some sc) ↔
        (∃ r0, lookupA st.tasks t = some r0 ∧ r0.user_id = u' ∧ r0.due_time = some sc) from by
      rw [hA t, if_neg ht]]
    exact hI u' t sc

theorem dueInv_pointwise_upsert (st st' : Store) (u tid : String) (r task1 : TaskRecord)
    (w : Int) (hl : lookupA st.tasks tid = some r) (hI : DueInv st)
    (huser : u = r.user_id)
    (hu : task1.user_id = r.user_id) (hd : task1.due_time = some w)
    (hA : ∀ t, lookupA st'.tasks t = if t = tid then some task1 else lookupA st.tasks t)
    (hC : ∀ u', dueEntriesOf st' u' =
        if u' = u
        then zadd (if intIsTruthy (decodeDue r.due_time)
                   then zrem (dueEntriesOf st u) tid
                   else dueEntriesOf st u) tid w
        else dueEntriesOf st u') :
    DueInv st' := by
  intro u' t sc
  rw [hC u']
  by_cases ht : t = tid
  · subst ht
    by_cases hu' : u' = u
    · rw [if_pos hu', mem_zadd_guard]
      constructor
      · rintro (⟨-, rfl⟩ | ⟨-, hne⟩)
        · exact ⟨task1, by rw [hA t, if_pos rfl], hu.trans (huser.symm.trans hu'.symm), hd⟩
        · exact absurd rfl hne
      · rintro ⟨r0, hr0, -, hrd⟩
        rw [hA t, if_pos rfl] at hr0
        injection hr0 with h
        subst h
        rw [hd] at hrd
        injection hrd with h2
        exact Or.inl ⟨rfl, h2.symm⟩
    · rw [if_neg hu']
      constructor
      · intro hmem
        obtain ⟨r0, hr0, hru0, -⟩ := (hI u' t sc).mp hmem
        rw [hl] at hr0
        injection hr0 with h
        subst h
        exact absurd (hru0.symm.trans huser.symm) hu'
      · rintro ⟨r0, hr0, hru0, -⟩
        rw [hA t, if_pos rfl] at hr0
        injection hr0 with h
        subst h
        exact absurd ((hru0.symm.trans hu).trans huser.symm) hu'
  · have hrhs : (∃ r0, lookupA st'.tasks t = some r0 ∧ r0.user_id = u' ∧ r0.due_time = some sc) ↔
        (∃ r0, lookupA st.tasks t = some r0 ∧ r0.user_id = u' ∧ r0.due_time = some sc) := by
      rw [hA t, if_neg ht]
    rw [hrhs]
    by_cases hu' : u' = u
    · subst hu'
      rw [if_pos rfl, mem_zadd_guard]
      constructor
      · rintro (⟨h, -⟩ | ⟨hm, -⟩)
        · exact absurd h ht
        · exact (hI u' t sc).mp hm
      · intro h
        exact Or.inr ⟨(hI u' t sc).mpr h, ht⟩
    · rw [if_neg hu']
      exact hI u' t sc

theorem dueInv_pointwise_deleted (st st' : Store) (u tid : String) (r : TaskRecord)
    (hl : lookupA st.tasks tid = some r) (hI : DueInv st)
    (huser : u = r.user_id) (hnz : r.due_time ≠ some 0)
    (hA : ∀ t, lookupA st'.tasks t = if t = tid then none else lookupA st.tasks t)
    (hC : ∀ u', dueEntriesOf st' u' =
        if (decodeDue r.due_time).isSome
        then (if u' = u then zrem (dueEntriesOf st u) tid else dueEntriesOf st u')
        else dueEntriesOf st u') :
    DueInv st' := by
  have hdec : decodeDue r.due_time = r.due_time := decodeDue_of_ne_zero r.due_time hnz
  intro u' t sc
  rw [hC u', hdec]
  by_cases ht : t = tid
  · subst ht
    constructor
    · intro hmem
      rcases hrdue : r.due_time with _ | v
      · rw [hrdue] at hmem
        simp only [Option.isSome_none, Bool.false_eq_true, if_false] at hmem
        obtain ⟨r0, hr0, -, hrd0⟩ := (hI u' t sc).mp hmem
        rw [hl] at hr0
        injection hr0 with h
        subst h
        rw [hrdue] at hrd0
        exact Option.noConfusion hrd0
      · rw [hrdue] at hmem
        simp only [Option.isSome_some, if_true] at hmem
        by_cases hu' : u' = u
        · rw [if_pos hu'] at hmem
          exact absurd rfl ((mem_zrem _ _ _ _).mp hmem).2
        · rw [if_neg hu'] at hmem
          obtain ⟨r0, hr0, hru0, -⟩ := (hI u' t sc).mp hmem
          rw [hl] at hr0
          injection hr0 with h
          subst h
          exact absurd (hru0.symm.trans huser.symm) hu'
    · rintro ⟨r0, hr0, -, -⟩
      rw [hA t, if_pos rfl] at hr0
      exact Option.noConfusion hr0
  · have hrhs : (∃ r0, lookupA st'.tasks t = some r0 ∧ r0.user_id = u' ∧ r0.due_time = some sc) ↔
        (∃ r0, lookupA st.tasks t = some r0 ∧ r0.user_id = u' ∧ r0.due_time = some sc) := by
      rw [hA t, if_neg ht]
    rw [hrhs]
    rcases r.due_time with _ | v
    · simp only [Option.isSome_none, Bool.false_eq_true, if_false]
      exact hI u' t sc
    · simp only [Option.isSome_some, if_true]
      by_cases hu' : u' = u
      · subst hu'
        rw [if_pos rfl, mem_zrem, and_iff_left ht]
        exact hI u' t sc
      · rw [if_neg hu']
        exact hI u' t sc

theorem c2_step (st : Store) (op : Op) (hI : DueInv st) (hOKd : DueOK st)
    (hg : goodOp st op = true) (hnzop : nzOp op = true) :
    DueInv (applyOp st op) ∧ DueOK (applyOp st op) := by
  cases op with
  | create u d s due tid now =>
      simp only [goodOp, Bool.and_eq_true, Option.isNone_iff_eq_none] at hg
      obtain ⟨hfresh, -⟩ := hg
      simp only [nzOp, bne_iff_ne, ne_eq] at hnzop
      have hA : ∀ t, lookupA (applyOp st (.create u d s due tid now)).tasks t =
          if t = tid then some ⟨tid, u, d, s, due, now⟩ else lookupA st.tasks t := by
        intro t
        show lookupA (createTask st u d s due tid now).tasks t = _
        rw [createTask_tasks, lookupA_setA]
      have hOKd1 : DueOK (applyOp st (.create u d s due tid now)) := by
        intro t r0 hr0
        rw [hA t] at hr0
        by_cases ht : t = tid
        · rw [if_pos ht] at hr0
          injection hr0 with h
          subst h
          exact hnzop
        · rw [if_neg ht] at hr0
          exact hOKd t r0 hr0
      refine ⟨?_, hOKd1⟩
      cases due with
      | none =>
          refine dueInv_pointwise_created_none st _ tid _ hfresh hI rfl hA ?_
          intro u'
          show (lookupA (createTask st u d s none tid now).dueIdx u').getD [] = _
          rw [createTask_dueIdx_none]
          rfl
      | some v =>
          refine dueInv_pointwise_created_some st _ u tid _ v hfresh hI rfl rfl hA ?_
          intro u'
          show (lookupA (createTask st u d s (some v) tid now).dueIdx u').getD [] = _
          rw [createTask_dueIdx_some, dueEntriesOf_zaddIdx]
          rfl
  | update u tid dU sU duU =>
      rcases hl : lookupA st.tasks tid with _ | r
      · have he : applyOp st (.update u tid dU sU duU) = st := by
          show (updateTask st u tid (opUpdates dU sU duU)).2 = st
          rw [updateTask_of_none st u tid _ hl]
        rw [he]
        exact ⟨hI, hOKd⟩
      · simp only [goodOp, hl, Bool.and_eq_true, beq_iff_eq] at hg
        obtain ⟨huser, -⟩ := hg
        have hA : ∀ t, lookupA (applyOp st (.update u tid dU sU duU)).tasks t =
            if t = tid then some (applyUpdates r (opUpdates dU sU duU))
            else lookupA st.tasks t := by
          intro t
          show lookupA (updateTask st u tid (opUpdates dU sU duU)).2.tasks t = _
          rw [updateTask_of_found st u tid _ r hl]
          exact lookupA_setA st.tasks tid t _
        have hdueidx : (applyOp st (.update u tid dU sU duU)).dueIdx =
            reindexDue st.dueIdx u tid r (opUpdates dU sU duU) := by
          show (updateTask st u tid (opUpdates dU sU duU)).2.dueIdx = _
          rw [updateTask_of_found st u tid _ r hl]
        have hOKd1 : DueOK (applyOp st (.update u tid dU sU duU)) := by
          intro t r0 hr0
          rw [hA t] at hr0
          by_cases ht : t = tid
          · rw [if_pos ht] at hr0
            injection hr0 with h
            subst h
            rw [applyUpdates_due_time]
            cases duU with
            | none => exact hOKd tid r hl
            | some w0 =>
                cases w0 with
                | none => exact decodeDue_not_zero r.due_time
                | some w =>
                    simp only [nzOp, bne_iff_ne, ne_eq] at hnzop
                    intro hc
                    injection hc with hc2
                    exact hnzop (by rw [hc2])
          · rw [if_neg ht] at hr0
            exact hOKd t r0 hr0
        refine ⟨?_, hOKd1⟩
        cases duU with
        | none =>
            refine dueInv_pointwise_unchanged st _ tid r _ hl hI
              (applyUpdates_user_id r dU sU none) (applyUpdates_due_time r dU sU none) ?_ ?_
            · exact hA
            · intro u'
              show (lookupA (applyOp st (.update u tid dU sU none)).dueIdx u').getD [] = _
              rw [hdueidx, reindexDue_opUpdates]
              rfl
        | some w0 =>
            cases w0 with
            | none =>
                rcases hrdue : r.due_time with _ | v
                · refine dueInv_pointwise_unchanged st _ tid r _ hl hI
                    (applyUpdates_user_id r dU sU (some none)) ?_ hA ?_
                  · rw [applyUpdates_due_time, hrdue]
                    rfl
                  · intro u'
                    show (lookupA (applyOp st (.update u tid dU sU (some none))).dueIdx
                        u').getD [] = _
                    rw [hdueidx, reindexDue_opUpdates]
                    simp only [hrdue]
                    rfl
                · have hvz : v ≠ 0 := by
                    intro h0
                    exact hOKd tid r hl (by rw [hrdue, h0])
                  have hdecv : decodeDue r.due_time = some v := by
                    rw [hrdue]
                    simp [decodeDue, hvz]
                  refine dueInv_pointwise_upsert st _ u tid r _ v hl hI huser
                    (applyUpdates_user_id r dU sU (some none)) ?_ hA ?_
                  · rw [applyUpdates_due_time, hdecv]
                  · intro u'
                    show (lookupA (applyOp st (.update u tid dU sU (some none))).dueIdx
                        u').getD [] = _
                    rw [hdueidx, reindexDue_opUpdates]
                    simp only [hdecv, intIsTruthy, bne_iff_ne, ne_eq, hvz, not_false_iff,
                      if_true, ite_true]
                    simp only [dueEntriesOf_zaddIdx, dueEntriesOf_zremIdx]
                    by_cases hu' : u' = u
                    · simp [hu', dueEntriesOf]
                    · simp [hu', dueEntriesOf]
            | some w =>
                refine dueInv_pointwise_upsert st _ u tid r _ w hl hI huser
                  (applyUpdates_user_id r dU sU (some (some w))) ?_ hA ?_
                · rw [applyUpdates_due_time]
                · intro u'
                  show (lookupA (applyOp st (.update u tid dU sU (some (some w)))).dueIdx
                      u').getD [] = _
                  rw [hdueidx, reindexDue_opUpdates]
                  cases hb : intIsTruthy (decodeDue r.due_time) with
                  | true =>
                      simp only [hb, if_true, ite_true]
                      simp only [dueEntriesOf_zaddIdx, dueEntriesOf_zremIdx]
                      by_cases hu' : u' = u
                      · simp [hu', dueEntriesOf]
                      · simp [hu', dueEntriesOf]
                  | false =>
                      simp only [hb, if_false, Bool.false_eq_true, ite_false]
                      simp only [dueEntriesOf_zaddIdx]
                      by_cases hu' : u' = u
                      · simp [hu', dueEntriesOf]
                      · simp [hu', dueEntriesOf]
  | delete u tid =>
      rcases hl : lookupA st.tasks tid with _ | r
      · have he : applyOp st (.delete u tid) = st := by
          show (deleteTask st u tid).2 = st
          rw [deleteTask_of_none st u tid hl]
        rw [he]
        exact ⟨hI, hOKd⟩
      · simp only [goodOp, hl, beq_iff_eq] at hg
        have hA : ∀ t, lookupA (applyOp st (.delete u tid)).tasks t =
            if t = tid then none else lookupA st.tasks t := by
          intro t
          show lookupA (deleteTask st u tid).2.tasks t = _
          rw [deleteTask_of_found st u tid r hl]
          exact lookupA_removeA st.tasks tid t
        have hC : ∀ u', dueEntriesOf (applyOp st (.delete u tid)) u' =
            if (decodeDue r.due_time).isSome
            then (if u' = u then zrem (dueEntriesOf st u) tid else dueEntriesOf st u')
            else dueEntriesOf st u' := by
          intro u'
          show (lookupA (deleteTask st u tid).2.dueIdx u').getD [] = _
          rw [deleteTask_of_found st u tid r hl]
          cases hb : (decodeDue r.due_time).isSome with
          | true =>
              simp only [hb, if_true, ite_true]
              rw [dueEntriesOf_zremIdx]
              rfl
          | false =>
              simp only [hb, if_false, Bool.false_eq_true, ite_false]
              rfl
        refine ⟨dueInv_pointwise_deleted st _ u tid r hl hI hg (hOKd tid r hl) hA hC, ?_⟩
        intro t r0 hr0
        rw [hA t] at hr0
        by_cases ht : t = tid
        · rw [if_pos ht] at hr0
          exact Option.noConfusion hr0
        · rw [if_neg ht] at hr0
          exact hOKd t r0 hr0

theorem c2_run (ops : List Op) :
    ∀ st : Store, DueInv st → DueOK st → goodFromNZ st ops = true →
      DueInv (runFrom st ops) ∧ DueOK (runFrom st ops) := by
  induction ops with
  | nil => exact fun st hI hOKd _ => ⟨hI, hOKd⟩
  | cons op rest ih =>
      intro st hI hOKd hg
      simp only [goodFromNZ, Bool.and_eq_true] at hg
      obtain ⟨⟨h1, h2⟩, h3⟩ := hg
      obtain ⟨hI', hOKd'⟩ := c2_step st op hI hOKd h1 h2
      exact ih (applyOp st op) hI' hOKd' h3

theorem dueInv_init : DueInv Store.init := by
  intro u t sc
  constructor
  · intro h
    simp [dueEntriesOf, Store.init, lookupA] at h
  · rintro ⟨r, hr, -, -⟩
    simp [Store.init, lookupA] at hr

theorem dueOK_init : DueOK Store.init := by
  intro t r hr
  simp [Store.init, lookupA] at hr

/-! ### Lemmas about the filtered query -/

theorem getTasksByFilters_eq_map (st : Store) (u : String) (so : Option (List String))
    (lo hi : Option Int) :
    getTasksByFilters st u so lo hi =
      ((filterIds st u so lo hi).getD []).map (fun t => getTask st t) := by
  unfold getTasksByFilters
  cases h : filterIds st u so lo hi with
  | none => rfl
  | some l =>
      cases l with
      | nil => rfl
      | cons a rest => rfl

theorem mem_unionBuckets (st : Store) (u : String) (ss : List String) (t : String) :
    t ∈ ((ss.map (fun s => bucketOf st u s)).flatten).dedup ↔
      ∃ s, s ∈ ss ∧ t ∈ bucketOf st u s := by
  rw [List.mem_dedup, List.mem_flatten]
  constructor
  · rintro ⟨l, hl, ht⟩
    obtain ⟨s, hs, rfl⟩ := List.mem_map.mp hl
    exact ⟨s, hs, ht⟩
  · rintro ⟨s, hs, ht⟩
    exact ⟨bucketOf st u s, List.mem_map.mpr ⟨s, hs, rfl⟩, ht⟩

theorem mem_timeIds (st : Store) (u : String) (lo hi : Option Int) (hInv : DueInv st)
    (t : String) :
    t ∈ zrangebyscore (dueEntriesOf st u) lo hi ↔
      ∃ r, lookupA st.tasks t = some r ∧ r.user_id = u ∧
        ∃ v, r.due_time = some v ∧ scoreInRange lo hi v = true := by
  rw [mem_zrangebyscore]
  constructor
  · rintro ⟨sc, hmem, hsc⟩
    obtain ⟨r, hr, hru, hrd⟩ := (hInv u t sc).mp hmem
    exact ⟨r, hr, hru, sc, hrd, hsc⟩
  · rintro ⟨r, hr, hru, v, hrd, hsc⟩
    exact ⟨v, (hInv u t v).mpr ⟨r, hr, hru, hrd⟩, hsc⟩

theorem filterIds_no_filter (st : Store) (u : String) (so : Option (List String))
    (hso : so = none ∨ so = some []) :
    filterIds st u so none none = none := by
  rcases hso with rfl | rfl <;> rfl

theorem filterIds_status_only (st : Store) (u s0 : String) (rest : List String) :
    filterIds st u (some (s0 :: rest)) none none =
      some ((((s0 :: rest).map (fun s => bucketOf st u s)).flatten).dedup) := rfl

theorem filterIds_time_only (st : Store) (u : String) (so : Option (List String))
    (lo hi : Option Int) (hso : so = none ∨ so = some [])
    (hb : (lo.isSome || hi.isSome) = true) :
    filterIds st u so lo hi = some (zrangebyscore (dueEntriesOf st u) lo hi) := by
  rcases hso with rfl | rfl <;> · unfold filterIds; rw [if_pos hb]

theorem filterIds_both (st : Store) (u s0 : String) (rest : List String)
    (lo hi : Option Int) (hb : (lo.isSome || hi.isSome) = true) :
    filterIds st u (some (s0 :: rest)) lo hi =
      some (((((s0 :: rest).map (fun s => bucketOf st u s)).flatten).dedup).filter
        (fun t => decide (t ∈ zrangebyscore (dueEntriesOf st u) lo hi))) := by
  unfold filterIds
  rw [if_pos hb]

/-! ### Concrete stores used by counterexamples and witnesses -/

/-- The store after `create_task(user="u", description="d", status="pending",
due_time=0)` with generated id `"t"`: the record stores the string `"0"` and
the due index holds `("t", 0)`. -/
def zeroDueStore : Store := createTask Store.init "u" "d" "pending" (some 0) "t" "9"

/-- `zeroDueStore` after `delete_task("u", "t")`: the primary record is gone
but the due-index entry `("t", 0)` survives (the read path decoded `"0"` as
absent, so `ZREM` was skipped). -/
def staleStore : Store := (deleteTask zeroDueStore "u" "t").2

/-- The store after `create_task(user="u1", description="milk",
status="pending", due_time=500)` with generated id `"t"`. -/
def due500Store : Store := createTask Store.init "u1" "milk" "pending" (some 500) "t" "9"

/-- An `updates` dict whose `due_time` key carries one of the sentinel values
`None` / `""` / `"None"` ("clear the due time"). -/
def clearDueUpd : Updates := { due_time := some none }

/-- `due500Store` after `update_task("u1", "t", {"due_time": None})`. -/
def c5Store : Store := (updateTask due500Store "u1" "t" clearDueUpd).2

theorem due500Store_dueInv : DueInv due500Store :=
  (c2_run [.create "u1" "milk" "pending" (some 500) "t" "9"] Store.init
    dueInv_init dueOK_init (by decide)).1

/-- The demonstration sequence for claim C1: create, status flip, a second
create, and a delete, all with the owning user and valid statuses. -/
def c1DemoOps : List Op :=
  [.create "u1" "milk" "pending" (some 500) "a" "10",
   .update "u1" "a" none (some "completed") none,
   .create "u1" "eggs" "completed" none "b" "11",
   .delete "u1" "a"]

/-- The sequence exhibiting the due-time-0 stale entry: create with
due_time 0, then delete. -/
def c2CexOps : List Op :=
  [.create "u" "d" "pending" (some 0) "t" "9", .delete "u" "t"]

/-- The demonstration sequence for claim C2 (no due time is ever 0). -/
def c2DemoOps : List Op :=
  [.create "u1" "milk" "pending" (some 500) "a" "10",
   .update "u1" "a" none none (some (some 700)),
   .update "u1" "a" (some (some "milk2")) none (some none),
   .create "u1" "eggs" "pending" none "b" "11",
   .delete "u1" "a"]

/-! ### The claims -/

/-- C1 (confirmed).  Status-index consistency: for every sequence of
`create_task` / `update_task` / `delete_task` operations in which each call is
made with the task's owning `user_id` and a status in `{pending, completed}`
(and each generated task id is fresh, modelling uuid generation), after each
operation a task id is a member of the status-index set for a `(user, status)`
pair iff the task's primary record exists with that owner and that stored
status — hence it is in no other status bucket.  Every prefix of a good
sequence is good, so this covers the state after each operation. -/
theorem c1_status_index_consistency (ops : List Op)
    (h : goodFrom Store.init ops = true) :
    StatusInv (runFrom Store.init ops) :=
  (c1_run ops Store.init statusInv_init statusOK_init h).1

/-- Witness for C1 at a concrete four-operation sequence. -/
theorem c1_status_index_consistency_witness :
    goodFrom Store.init c1DemoOps = true ∧ StatusInv (runFrom Store.init c1DemoOps) :=
  ⟨by decide, c1_status_index_consistency c1DemoOps (by decide)⟩

/-- C2 (corrected), counterexample.  The claim admits `due_time = 0` as
present; but after `create_task(..., due_time=0)` followed by
`delete_task` with the owning user, the id `"t"` is still a member of the
user's due index while its primary record no longer exists — the claimed
iff fails.  (The record stores `"0"`, which `get_task` decodes as absent, so
`delete_task` skips the `ZREM`.) -/
theorem c2_due_index_consistency_counterexample :
    goodFrom Store.init c2CexOps = true ∧ ¬ DueInv (runFrom Store.init c2CexOps) := by
  refine ⟨by decide, fun h => ?_⟩
  obtain ⟨r, hr, -, -⟩ := (h "u" "t" 0).mp (by decide)
  have hn : lookupA (runFrom Store.init c2CexOps).tasks "t" = none := by decide
  rw [hn] at hr
  exact Option.noConfusion hr

/-- C2 (corrected), amended.  Due-index consistency holds for every good
sequence in which no create or update ever supplies the due time `0` (whose
stored form `"0"` the read paths treat as absent): after each operation a
task id is in its user's due index with score `sc` iff its primary record
exists, belongs to that user and stores due time `sc`. -/
theorem c2_due_index_consistency (ops : List Op)
    (h : goodFromNZ Store.init ops = true) :
    DueInv (runFrom Store.init ops) :=
  (c2_run ops Store.init dueInv_init dueOK_init h).1

/-- Witness for C2 at a concrete five-operation sequence. -/
theorem c2_due_index_consistency_witness :
    goodFromNZ Store.init c2DemoOps = true ∧ DueInv (runFrom Store.init c2DemoOps) :=
  ⟨by decide, c2_due_index_consistency c2DemoOps (by decide)⟩

/-- C3 (confirmed).  The filter-combination policy of `get_tasks_by_filters`
on a store whose due index is consistent: no filter gives `[]`; only statuses
gives exactly (`get_task` of) the union of the requested status buckets; only
a time bound gives exactly the tasks of that user whose due time lies in the
inclusive range (a missing bound is unbounded on that side, equality with a
bound included); both give exactly the intersection of those two id sets. -/
theorem c3_query_filter_policy (st : Store) (u : String) (hInv : DueInv st) :
    (getTasksByFilters st u none none none = [] ∧
     getTasksByFilters st u (some []) none none = []) ∧
    (∀ s0 : String, ∀ rest : List String,
      ∃ ids : List String,
        getTasksByFilters st u (some (s0 :: rest)) none none =
          ids.map (fun t => getTask st t) ∧
        ∀ t, t ∈ ids ↔ ∃ s, s ∈ s0 :: rest ∧ t ∈ bucketOf st u s) ∧
    (∀ so : Option (List String), (so = none ∨ so = some []) →
      ∀ lo hi : Option Int, (lo.isSome || hi.isSome) = true →
      ∃ ids : List String,
        getTasksByFilters st u so lo hi = ids.map (fun t => getTask st t) ∧
        ∀ t, t ∈ ids ↔ ∃ r, lookupA st.tasks t = some r ∧ r.user_id = u ∧
          ∃ v, r.due_time = some v ∧ scoreInRange lo hi v = true) ∧
    (∀ s0 : String, ∀ rest : List String, ∀ lo hi : Option Int,
      (lo.isSome || hi.isSome) = true →
      ∃ ids : List String,
        getTasksByFilters st u (some (s0 :: rest)) lo hi =
          ids.map (fun t => getTask st t) ∧
        ∀ t, t ∈ ids ↔ ((∃ s, s ∈ s0 :: rest ∧ t ∈ bucketOf st u s) ∧
          ∃ r, lookupA st.tasks t = some r ∧ r.user_id = u ∧
            ∃ v, r.due_time = some v ∧ scoreInRange lo hi v = true)) := by
  refine ⟨⟨?_, ?_⟩, ?_, ?_, ?_⟩
  · rw [getTasksByFilters_eq_map, filterIds_no_filter st u none (Or.inl rfl)]
    rfl
  · rw [getTasksByFilters_eq_map, filterIds_no_filter st u (some []) (Or.inr rfl)]
    rfl
  · intro s0 rest
    refine ⟨(((s0 :: rest).map (fun s => bucketOf st u s)).flatten).dedup, ?_, ?_⟩
    · rw [getTasksByFilters_eq_map, filterIds_status_only]
      rfl
    · intro t
      exact mem_unionBuckets st u (s0 :: rest) t
  · intro so hso lo hi hb
    refine ⟨zrangebyscore (dueEntriesOf st u) lo hi, ?_,
      fun t => mem_timeIds st u lo hi hInv t⟩
    rw [getTasksByFilters_eq_map, filterIds_time_only st u so lo hi hso hb]
    rfl
  · intro s0 rest lo hi hb
    refine ⟨((((s0 :: rest).map (fun s => bucketOf st u s)).flatten).dedup).filter
      (fun t => decide (t ∈ zrangebyscore (dueEntriesOf st u) lo hi)), ?_, ?_⟩
    · rw [getTasksByFilters_eq_map, filterIds_both st u s0 rest lo hi hb]
      rfl
    · intro t
      rw [List.mem_filter]
      constructor
      · rintro ⟨h1, h2⟩
        exact ⟨(mem_unionBuckets st u (s0 :: rest) t).mp h1,
          (mem_timeIds st u lo hi hInv t).mp (of_decide_eq_true h2)⟩
      · rintro ⟨h1, h2⟩
        exact ⟨(mem_unionBuckets st u (s0 :: rest) t).mpr h1,
          decide_eq_true ((mem_timeIds st u lo hi hInv t).mpr h2)⟩

/-- Witness for C3 at the concrete consistent store `due500Store`. -/
theorem c3_query_filter_policy_witness :
    getTasksByFilters due500Store "u1" none none none = [] ∧
    (∃ ids : List String,
      getTasksByFilters due500Store "u1" (some ["pending"]) none none =
        ids.map (fun t => getTask due500Store t) ∧
      ∀ t, t ∈ ids ↔ ∃ s, s ∈ ["pending"] ∧ t ∈ bucketOf due500Store "u1" s) :=
  ⟨(c3_query_filter_policy due500Store "u1" due500Store_dueInv).1.1,
   (c3_query_filter_policy due500Store "u1" due500Store_dueInv).2.1 "pending" []⟩

/-- C4 (corrected), counterexample.  The claim says delete removes the due
index entry "for any present due_time, including epoch 0"; but deleting the
task created with `due_time=0` returns `True` and removes the primary record
while leaving `("t", 0)` in the user's due index (the stored `"0"` decodes as
absent, so `delete_task` skips the `ZREM`). -/
theorem c4_delete_completeness_counterexample :
    (deleteTask zeroDueStore "u" "t").1 = true ∧
    lookupA (deleteTask zeroDueStore "u" "t").2.tasks "t" = none ∧
    ("t", (0 : Int)) ∈ dueEntriesOf (deleteTask zeroDueStore "u" "t").2 "u" := by
  decide

/-- C4 (corrected), amended.  Deleting an existing task (owning user, status
in `{pending, completed}`) returns `True`, removes the primary record and the
status-bucket entry, and removes the due-index entry whenever the stored
due time decodes as present (i.e. is nonzero); when the stored due time is
absent or the legacy `"0"` it leaves the due index untouched (so a due-0
task's entry survives).  A second delete of the same id returns `False` and
changes no state. -/
theorem c4_delete_completeness (st : Store) (user tid : String) (r : TaskRecord)
    (hl : lookupA st.tasks tid = some r) (_hu : user = r.user_id)
    (hs : r.status = "pending" ∨ r.status = "completed") :
    (deleteTask st user tid).1 = true ∧
    lookupA (deleteTask st user tid).2.tasks tid = none ∧
    tid ∉ bucketOf (deleteTask st user tid).2 user r.status ∧
    (∀ sc : Int, (decodeDue r.due_time).isSome = true →
      (tid, sc) ∉ dueEntriesOf (deleteTask st user tid).2 user) ∧
    ((decodeDue r.due_time).isSome = false → (deleteTask st user tid).2.dueIdx = st.dueIdx) ∧
    deleteTask (deleteTask st user tid).2 user tid = (false, (deleteTask st user tid).2) := by
  have hguard : r.status ≠ "" ∧ r.status ≠ "0" := by
    rcases hs with h | h <;> rw [h] <;> exact ⟨by decide, by decide⟩
  have htasks : (deleteTask st user tid).2.tasks = removeA st.tasks tid := by
    rw [deleteTask_of_found st user tid r hl]
  have hstat : (deleteTask st user tid).2.statusIdx =
      sremIdx st.statusIdx (user, r.status) tid := by
    rw [deleteTask_of_found st user tid r hl]
    exact if_pos hguard
  have hdue : (deleteTask st user tid).2.dueIdx =
      if (decodeDue r.due_time).isSome then zremIdx st.dueIdx user tid else st.dueIdx := by
    rw [deleteTask_of_found st user tid r hl]
  have hlook : lookupA (deleteTask st user tid).2.tasks tid = none := by
    rw [htasks, lookupA_removeA]
    exact if_pos rfl
  refine ⟨?_, hlook, ?_, ?_, ?_, deleteTask_of_none _ user tid hlook⟩
  · rw [deleteTask_of_found st user tid r hl]
  · show tid ∉ (lookupA (deleteTask st user tid).2.statusIdx (user, r.status)).getD []
    rw [hstat, lookupA_getD_sremIdx, if_pos rfl]
    intro hmem
    exact ((mem_srem _ _ _).mp hmem).2 rfl
  · intro sc hdec
    show (tid, sc) ∉ (lookupA (deleteTask st user tid).2.dueIdx user).getD []
    rw [hdue, if_pos hdec, dueEntriesOf_zremIdx, if_pos rfl]
    intro hmem
    exact ((mem_zrem _ _ _ _).mp hmem).2 rfl
  · intro hdec
    rw [hdue, if_neg (by rw [hdec]; exact Bool.false_ne_true)]

/-- Witness for C4 at the concrete store `due500Store`. -/
theorem c4_delete_completeness_witness :
    (deleteTask due500Store "u1" "t").1 = true ∧
    lookupA (deleteTask due500Store "u1" "t").2.tasks "t" = none ∧
    "t" ∉ bucketOf (deleteTask due500Store "u1" "t").2 "u1" "pending" := by
  have h := c4_delete_completeness due500Store "u1" "t"
    ⟨"t", "u1", "milk", "pending", some 500, "9"⟩ (by decide) rfl (Or.inl rfl)
  exact ⟨h.1, h.2.1, h.2.2.1⟩

/-- C5 (corrected), counterexample.  After creating a task with
`due_time=500` and updating it with the `due_time` field cleared (the dict
value `None`), the due index STILL contains the id at score 500 and
`query(u1, start=0, end=1000)` still includes the task — contrary to the
claim that the entry is removed and the query excludes it.  (`update_task`
treats `None`/`""`/`"None"` as "keep the current due time".) -/
theorem c5_clear_due_counterexample :
    ("t", (500 : Int)) ∈ dueEntriesOf c5Store "u1" ∧
    getTask c5Store "t" ∈ getTasksByFilters c5Store "u1" none (some 0) (some 1000) := by
  decide

/-- C5 (corrected), amended.  Updating the task created with `due_time=500`
with the `due_time` field cleared returns `True` and keeps the stored
due time 500: the due index still contains the id at score 500, and a
subsequent `query(u1, start=0, end=1000)` still includes the task. -/
theorem c5_clear_due_keeps_entry :
    (updateTask due500Store "u1" "t" clearDueUpd).1 = true ∧
    (lookupA c5Store.tasks "t").map TaskRecord.due_time = some (some 500) ∧
    ("t", (500 : Int)) ∈ dueEntriesOf c5Store "u1" ∧
    getTask c5Store "t" ∈ getTasksByFilters c5Store "u1" none (some 0) (some 1000) := by
  decide

/-- C6 (corrected), counterexample.  On a store with a stale due-index entry
(`staleStore`, reachable by create-with-due-0 then delete), the query over
the range `[0, 0]` returns the one-element list `[None]`: the unresolvable id
is NOT dropped — it contributes an absent entry to the returned list. -/
theorem c6_stale_filtering_counterexample :
    lookupA staleStore.tasks "t" = none ∧
    getTasksByFilters staleStore "u" none (some 0) (some 0) = [none] := by
  decide

/-- C6 (corrected), amended.  `get_tasks_by_filters` raises no error on stale
ids, but it does not drop them either: every id in the combined filter set
that resolves to no primary record contributes an absent (`None`) entry to
the returned list (the observed HTTP layer, not the store, filters them). -/
theorem c6_stale_ids_not_dropped (st : Store) (u : String) (so : Option (List String))
    (lo hi : Option Int) (ids : List String) (t : String)
    (hids : filterIds st u so lo hi = some ids) (ht : t ∈ ids)
    (hn : lookupA st.tasks t = none) :
    (none : Option TaskView) ∈ getTasksByFilters st u so lo hi := by
  rw [getTasksByFilters_eq_map, hids, Option.getD_some]
  exact List.mem_map.mpr ⟨t, ht, getTask_of_none st t hn⟩

/-- Witness for C6 at the concrete stale store. -/
theorem c6_stale_ids_not_dropped_witness :
    filterIds staleStore "u" none (some 0) (some 0) = some ["t"] ∧
    lookupA staleStore.tasks "t" = none ∧
    (none : Option TaskView) ∈ getTasksByFilters staleStore "u" none (some 0) (some 0) :=
  ⟨by decide, by decide,
   c6_stale_ids_not_dropped staleStore "u" none (some 0) (some 0) ["t"] "t"
     (by decide) (by decide) (by decide)⟩

/-- The store after `create_task(user="u", description="d", status="pending")`
with no due time and generated id `"t"` at timestamp `"100"`. -/
def baseStore : Store := createTask Store.init "u" "d" "pending" none "t" "100"

/-- An `updates` dict supplying the `created_at` key with value `"999"`. -/
def createdAtUpd : Updates := { created_at := some (some "999") }

/-- C7 (corrected), counterexample.  The claim says `id`, `user_id` and
`created_at` stay unchanged "whatever field set the update supplies"; but the
update loop writes every supplied key, so an updates dict containing
`created_at` overwrites the stored `created_at` from `"100"` to `"999"`
(and `update_task` still returns `True`). -/
theorem c7_immutable_fields_counterexample :
    (lookupA baseStore.tasks "t").map TaskRecord.created_at = some "100" ∧
    (updateTask baseStore "u" "t" createdAtUpd).1 = true ∧
    (lookupA (updateTask baseStore "u" "t" createdAtUpd).2.tasks "t").map
      TaskRecord.created_at = some "999" := by
  decide

/-- C7 (corrected), amended.  For every existing task and every `update_task`
call whose updates dict does not itself contain the `id`, `user_id` or
`created_at` keys — as is the case for every call the surrounding API makes,
since it only passes `description`, `status` and `due_time` — those three
fields of the primary record are unchanged by the update. -/
theorem c7_immutable_fields (st : Store) (user tid : String) (upd : Updates)
    (r : TaskRecord) (h1 : upd.id = none) (h2 : upd.user_id = none)
    (h3 : upd.created_at = none) (hl : lookupA st.tasks tid = some r) :
    ∃ r', lookupA (updateTask st user tid upd).2.tasks tid = some r' ∧
      r'.id = r.id ∧ r'.user_id = r.user_id ∧ r'.created_at = r.created_at := by
  rw [updateTask_of_found st user tid upd r hl]
  refine ⟨applyUpdates r upd, ?_, ?_, ?_, ?_⟩
  · show lookupA (setA st.tasks tid (applyUpdates r upd)) tid = some (applyUpdates r upd)
    rw [lookupA_setA]
    exact if_pos rfl
  · show applyVal r.id upd.id = r.id
    rw [h1]
    rfl
  · show applyVal r.user_id upd.user_id = r.user_id
    rw [h2]
    rfl
  · show applyVal r.created_at upd.created_at = r.created_at
    rw [h3]
    rfl

/-- Witness for C7: a status-only update of the task in `baseStore`. -/
theorem c7_immutable_fields_witness :
    ∃ r', lookupA (updateTask baseStore "u" "t"
        { status := some (some "completed") }).2.tasks "t" = some r' ∧
      r'.id = "t" ∧ r'.user_id = "u" ∧ r'.created_at = "100" :=
  c7_immutable_fields baseStore "u" "t" { status := some (some "completed") }
    ⟨"t", "u", "d", "pending", none, "100"⟩ rfl rfl rfl (by decide)

/-- C8 (confirmed).  When the target task id does not exist, `update_task`
and `delete_task` return `False` without modifying any primary record or
index (the returned state is the input state), and `get_task` returns
absent; none of them raises. -/
theorem c8_notfound_is_normal (st : Store) (user tid : String) (upd : Updates)
    (h : lookupA st.tasks tid = none) :
    updateTask st user tid upd = (false, st) ∧
    deleteTask st user tid = (false, st) ∧
    getTask st tid = none :=
  ⟨updateTask_of_none st user tid upd h, deleteTask_of_none st user tid h,
   getTask_of_none st tid h⟩

/-- Witness for C8 on the empty store. -/
theorem c8_notfound_is_normal_witness :
    lookupA Store.init.tasks "missing" = none ∧
    (updateTask Store.init "u" "missing" {} = (false, Store.init) ∧
     deleteTask Store.init "u" "missing" = (false, Store.init) ∧
     getTask Store.init "missing" = none) :=
  ⟨rfl, c8_notfound_is_normal Store.init "u" "missing" {} rfl⟩

/-- C9 (confirmed).  Updating an existing task's status to its current status
returns `True` and leaves both the status index and the due index exactly
unchanged (the status reindex is guarded by `new_status != old_status`, and
no `due_time` key means no due reindex). -/
theorem c9_noop_status_update (st : Store) (user tid : String) (r : TaskRecord)
    (hl : lookupA st.tasks tid = some r) :
    (updateTask st user tid { status := some (some r.status) }).1 = true ∧
    (updateTask st user tid { status := some (some r.status) }).2.statusIdx
      = st.statusIdx ∧
    (updateTask st user tid { status := some (some r.status) }).2.dueIdx
      = st.dueIdx := by
  rw [updateTask_of_found st user tid _ r hl]
  refine ⟨rfl, ?_, rfl⟩
  show reindexStatus st.statusIdx user tid r { status := some (some r.status) }
    = st.statusIdx
  simp [reindexStatus]

/-- Witness for C9: a no-op "pending" update of the task in `due500Store`. -/
theorem c9_noop_status_update_witness :
    (updateTask due500Store "u1" "t" { status := some (some "pending") }).1 = true ∧
    (updateTask due500Store "u1" "t" { status := some (some "pending") }).2.statusIdx
      = due500Store.statusIdx ∧
    (updateTask due500Store "u1" "t" { status := some (some "pending") }).2.dueIdx
      = due500Store.dueIdx :=
  c9_noop_status_update due500Store "u1" "t"
    ⟨"t", "u1", "milk", "pending", some 500, "9"⟩ (by decide)

/-- C10 (corrected), counterexample.  The claim says the stored `due_time`
field is preserved when the update carries a sentinel value; but on a task
whose stored `due_time` is the string `"0"` the field is rewritten to the
empty string (the decoded "absent" is re-encoded), so the stored field is
not literally preserved. -/
theorem c10_due_sentinel_counterexample :
    (lookupA zeroDueStore.tasks "t").map TaskRecord.due_time = some (some 0) ∧
    (lookupA (updateTask zeroDueStore "u" "t" clearDueUpd).2.tasks "t").map
      TaskRecord.due_time = some none := by
  decide

/-- C10 (corrected), amended.  When the updates dict carries the `due_time`
key with a sentinel value (`None` / `""` / `"None"`), `update_task` keeps the
task's current decoded due time: the stored field becomes the re-encoding of
the decoded value (identical to the old field except that a stored `"0"` is
normalized to `""`); when the decoded due time is absent the due index is
untouched; when it is present with value `v` the id's only due-index entry
for that user afterwards is at score `v` and all other entries are unchanged
— so a present due time can never be changed to absent through
`update_task`. -/
theorem c10_due_sentinel_keeps_decoded (st : Store) (user tid : String)
    (upd : Updates) (r : TaskRecord) (hl : lookupA st.tasks tid = some r)
    (hd : upd.due_time = some none) :
    (updateTask st user tid upd).1 = true ∧
    (∃ r', lookupA (updateTask st user tid upd).2.tasks tid = some r' ∧
      r'.due_time = decodeDue r.due_time ∧
      (r.due_time ≠ some 0 → r'.due_time = r.due_time)) ∧
    (decodeDue r.due_time = none → (updateTask st user tid upd).2.dueIdx = st.dueIdx) ∧
    (∀ v : Int, decodeDue r.due_time = some v →
      (∀ sc : Int, ((tid, sc) ∈ dueEntriesOf (updateTask st user tid upd).2 user ↔ sc = v)) ∧
      (∀ t' : String, t' ≠ tid → ∀ sc : Int,
        ((t', sc) ∈ dueEntriesOf (updateTask st user tid upd).2 user ↔
          (t', sc) ∈ dueEntriesOf st user)) ∧
      (∀ u' : String, u' ≠ user →
        dueEntriesOf (updateTask st user tid upd).2 u' = dueEntriesOf st u')) := by
  rw [updateTask_of_found st user tid upd r hl]
  have hfield : (applyUpdates r upd).due_time = decodeDue r.due_time := by
    simp [applyUpdates, effDue, hd]
  refine ⟨rfl, ⟨applyUpdates r upd, ?_, hfield, ?_⟩, ?_, ?_⟩
  · show lookupA (setA st.tasks tid (applyUpdates r upd)) tid = some (applyUpdates r upd)
    rw [lookupA_setA]
    exact if_pos rfl
  · intro hz
    rw [hfield, decodeDue_of_ne_zero r.due_time hz]
  · intro h0
    show reindexDue st.dueIdx user tid r upd = st.dueIdx
    simp [reindexDue, hd, effDue, h0, intIsTruthy]
  · intro v hv
    have hvz : v ≠ 0 := decodeDue_ne_zero r.due_time v hv
    have hre : reindexDue st.dueIdx user tid r upd =
        zaddIdx (zremIdx st.dueIdx user tid) user tid v := by
      simp [reindexDue, hd, effDue, hv, intIsTruthy, hvz]
    refine ⟨?_, ?_, ?_⟩
    · intro sc
      show (tid, sc) ∈ (lookupA (reindexDue st.dueIdx user tid r upd) user).getD [] ↔ sc = v
      rw [hre, dueEntriesOf_zaddIdx, if_pos rfl, mem_zadd]
      constructor
      · rintro (⟨-, rfl⟩ | ⟨-, hne⟩)
        · rfl
        · exact absurd rfl hne
      · rintro rfl
        exact Or.inl ⟨rfl, rfl⟩
    · intro t' ht' sc
      show (t', sc) ∈ (lookupA (reindexDue st.dueIdx user tid r upd) user).getD [] ↔ _
      rw [hre, dueEntriesOf_zaddIdx, if_pos rfl, mem_zadd, dueEntriesOf_zremIdx, if_pos rfl,
        mem_zrem]
      constructor
      · rintro (⟨h, -⟩ | ⟨⟨hm, -⟩, -⟩)
        · exact absurd h ht'
        · exact hm
      · intro hm
        exact Or.inr ⟨⟨hm, ht'⟩, ht'⟩
    · intro u' hu'
      show (lookupA (reindexDue st.dueIdx user tid r upd) u').getD [] = _
      rw [hre, dueEntriesOf_zaddIdx, if_neg hu', dueEntriesOf_zremIdx, if_neg hu']
      rfl

/-- Witness for C10: clearing the due time of the task in `due500Store`
returns `True` and the only due-index entry for `"t"` is still at 500. -/
theorem c10_due_sentinel_keeps_decoded_witness :
    (updateTask due500Store "u1" "t" clearDueUpd).1 = true ∧
    (∀ sc : Int, ("t", sc) ∈ dueEntriesOf (updateTask due500Store "u1" "t" clearDueUpd).2 "u1"
      ↔ sc = 500) := by
  have h := c10_due_sentinel_keeps_decoded due500Store "u1" "t" clearDueUpd
    ⟨"t", "u1", "milk", "pending", some 500, "9"⟩ (by decide) rfl
  exact ⟨h.1, (h.2.2.2 500 (by decide)).1⟩
